import Mathlib

/-!
# Verification of the LSH cache (mattilyra/LSH)

A shallow embedding of `lsh/backends.py` and `lsh/cache.py`, together with
proofs about the claims of the specification.

Conventions of the embedding:
* Python `dict`s are association lists (`List (κ × β)`); `d[k] = v` updates the
  first entry with key `k` in place or appends a fresh entry, `del d[k]`
  removes the first entry with key `k` — exactly the observable behaviour of a
  Python dict, whose keys are unique.  Python `set`s of document ids are
  `List DocId` where insertion appends a missing element.
* Document ids are `Int` (the reserved sentinel id is `-1`).  A Python-level
  `None` document id cannot be represented by `Int`; the embedded functions
  note where a `doc_id is None` branch of the source is therefore dead.
* `hash(tuple(band))` — CPython's deterministic tuple hash — is an explicit
  parameter `hashT : List Nat → Nat` of every cache-level operation, so every
  theorem quantified over `hashT` holds for the real interpreter hash.
  Concrete evaluations use `hashModel`, a fixed deterministic mixing function
  that (like CPython's hash) distinguishes the small tuples appearing in them.
* Fallible code returns `Except PyErr`; an error result models the exception
  propagating out of the call.  Every error proved about in this file is
  raised before the first mutation of the backend, so no state accompanies an
  error value.
-/

/-- The kinds of Python exception relevant to the embedded code. -/
inductive PyErr where
  | typeError
  | keyError
  | valueError
  | assertionError
  | runtimeError
  deriving DecidableEq, Repr

abbrev DocId := Int

/-- A fingerprint (minhash signature): a tuple of unsigned 32-bit values.
Only equality of entries matters to the embedded code, so the values are
plain naturals. -/
abbrev Fp := List Nat

/-! ## Association-list model of Python dicts -/

/-- Dict lookup: the value of the first entry with the given key. -/
def lookupKV [DecidableEq κ] : List (κ × β) → κ → Option β
  | [], _ => none
  | p :: m, k => if p.1 = k then some p.2 else lookupKV m k

/-- Embeds `d[k] = v`: replace the value of the first entry with key `k`, or append a
fresh entry when the key is absent. -/
def setKV [DecidableEq κ] : List (κ × β) → κ → β → List (κ × β)
  | [], k, v => [(k, v)]
  | p :: m, k, v => if p.1 = k then (k, v) :: m else p :: setKV m k v

/-- Embeds `del d[k]`: drop the first entry with key `k`. -/
def delKV [DecidableEq κ] : List (κ × β) → κ → List (κ × β)
  | [], _ => []
  | p :: m, k => if p.1 = k then m else p :: delKV m k

/-- Python `set.add`: append the element when it is not yet a member. -/
def insertSet (d : DocId) (s : List DocId) : List DocId :=
  if d ∈ s then s else s ++ [d]

/-- Keys of an association list. -/
def keysKV {κ β : Type} (m : List (κ × β)) : List κ := m.map Prod.fst

/-- In-place update of the element at one index; the source only ever indexes
bands that exist (`bin_i < num_bands = len(self._doc_ids)`). -/
def modifyIdx : List α → Nat → (α → α) → List α
  | [], _, _ => []
  | a :: l, 0, f => f a :: l
  | a :: l, n + 1, f => a :: modifyIdx l n f

/-! ## The in-memory backend (`DictBackend`, backends.py lines 31-95) -/

/-- The effect of one `DictBackend.add_fingerprint` call on one band dict
(backends.py lines 56-58): create the bucket as an empty set when missing,
then `add` the id to it. -/
def addToBand (band : List (Nat × List DocId)) (bucketId : Nat) (d : DocId) :
    List (Nat × List DocId) :=
  match lookupKV band bucketId with
  | none => band ++ [(bucketId, [d])]
  | some s => setKV band bucketId (insertSet d s)

/-- The effect of a successful `DictBackend.remove_docid` on one band dict
(backends.py lines 86-88): `set.remove` the id, then delete the bucket if it
became empty. -/
def removeFromBand (band : List (Nat × List DocId)) (bucketId : Nat)
    (d : DocId) : List (Nat × List DocId) :=
  if (((lookupKV band bucketId).getD []).filter (fun x => x ≠ d)).isEmpty
  then delKV band bucketId
  else setKV band bucketId (((lookupKV band bucketId).getD []).filter (fun x => x ≠ d))

/-- State of `DictBackend`: `self._fingerprints` (a dict that is `None` until
the first `add_fingerprint`), `self._doc_ids` (one `bucket_id → set of ids`
dict per band) and `self.num_bands`. -/
structure DictBackend where
  fingerprints : Option (List (DocId × Fp))
  docIds : List (List (Nat × List DocId))
  numBands : Nat
  deriving DecidableEq, Repr

namespace DictBackend

/-- Embeds `DictBackend.__init__(num_bands, cache_documents=False)`. -/
def init (numBands : Nat) : DictBackend :=
  { fingerprints := none
    docIds := List.replicate numBands []
    numBands := numBands }

/-- Embeds `DictBackend.is_empty` (lines 37-38): the source returns
`self._doc_ids is None or not self._doc_ids`.  `_doc_ids` is always a list
(never `None`), and `not` on a list tests list emptiness, so the result is
the emptiness of the band list — independent of the stored documents. -/
def is_empty (st : DictBackend) : Bool := st.docIds.isEmpty

/-- The stored fingerprint of a document, if any (a lookup through the
possibly uninitialized `self._fingerprints`). -/
def fpAt (st : DictBackend) (d : DocId) : Option Fp :=
  match st.fingerprints with
  | none => none
  | some m => lookupKV m d

/-- Embeds `DictBackend.add_fingerprint(bin_i, bucket_id, fingerprint, doc_id)`
(lines 40-62): add `doc_id` to bucket `bucket_id` of band `bin_i` (creating
the bucket when missing) and store `doc_id → fingerprint`, initializing the
fingerprint dict on first use.  There is no presence check: an existing id is
re-added and its fingerprint overwritten.  `validate_docid` only rejects a
`None` or unhashable id, which `DocId = Int` cannot represent. -/
def add_fingerprint (st : DictBackend) (binI : Nat) (bucketId : Nat)
    (fingerprint : Fp) (docId : DocId) : DictBackend :=
  { st with
    docIds := modifyIdx st.docIds binI (fun band => addToBand band bucketId docId)
    fingerprints := some (setKV (st.fingerprints.getD []) docId fingerprint) }

/-- Embeds `DictBackend.get_fingerprint` (lines 74-77).  The source guard is
`doc_id is None or doc_id not in self._fingerprints`; an `Int` id is never
`None`, so the live behaviour is: the membership test on an uninitialized
map (`None`) raises `TypeError`, an absent key raises `KeyError`. -/
def get_fingerprint (st : DictBackend) (docId : DocId) : Except PyErr Fp :=
  match st.fingerprints with
  | none => Except.error PyErr.typeError
  | some m =>
    match lookupKV m docId with
    | none => Except.error PyErr.keyError
    | some fp => Except.ok fp

/-- Embeds `DictBackend.get_bucket` (lines 67-72): the ids in a bucket, the empty
collection when the bucket is absent. -/
def get_bucket (st : DictBackend) (binI : Nat) (bucketId : Nat) : List DocId :=
  (lookupKV (st.docIds.getD binI []) bucketId).getD []

/-- Embeds `DictBackend.remove_docid` (lines 85-88): `set.remove` raises `KeyError`
when the bucket is missing or the id is not a member; a bucket emptied by the
removal is deleted from the band dict. -/
def remove_docid (st : DictBackend) (binI : Nat) (bucketId : Nat) (docId : DocId) :
    Except PyErr DictBackend :=
  match lookupKV (st.docIds.getD binI []) bucketId with
  | none => Except.error PyErr.keyError
  | some s =>
    if docId ∈ s then
      Except.ok { st with docIds :=
        (modifyIdx st.docIds binI (fun band => removeFromBand band bucketId docId)) }
    else Except.error PyErr.keyError

/-- Embeds `DictBackend.remove_fingerprint` (lines 90-91): `del` raises `KeyError`
on an absent key and `TypeError` when the dict is still `None`. -/
def remove_fingerprint (st : DictBackend) (docId : DocId) : Except PyErr DictBackend :=
  match st.fingerprints with
  | none => Except.error PyErr.typeError
  | some m =>
    match lookupKV m docId with
    | none => Except.error PyErr.keyError
    | some _ => Except.ok { st with fingerprints := some (delKV m docId) }

/-- Embeds `DictBackend.clear` (lines 93-95). -/
def clear (st : DictBackend) : DictBackend :=
  { fingerprints := none
    docIds := List.replicate st.numBands []
    numBands := st.numBands }

end DictBackend

/-! ## The durable backend (`SqliteBackend`, backends.py lines 110-206)

The sqlite file is abstracted as the list of rows of its single `data` table,
one row per `(band_id, bucket_id, doc_id, fingerprint word, f_ord)`. -/

structure SqliteBackend where
  numBands : Int
  /-- Embeds `self.empty` -/
  empty : Bool
  /-- the misspelled attribute `self.emtpy` created by `add_fingerprint`
  line 153 (`self.emtpy = False`); absent until that line runs. -/
  emtpy : Option Bool
  rows : List (Nat × Nat × DocId × Nat × Nat)
  deriving DecidableEq, Repr

namespace SqliteBackend

/-- Embeds `SqliteBackend.__init__(num_bands, filename)` (lines 111-127), over an
abstract file state: `fileExists` says whether the database file is already
present and `fileRows` are the rows it holds.  Two behaviours read straight
off the source:
* the mismatch guard is `self.num_bands != num_bands and num_bands > 0`,
  evaluated right after `self.num_bands = num_bands`, hence identically
  false — no band count is read from (or ever written to) the file;
* the emptiness probe compares `c.execute(...).fetchone()` — a 1-tuple —
  with the integer `0`, which is false, so `self.empty` becomes `False` for
  any existing file. -/
def init (numBands : Int) (fileExists : Bool)
    (fileRows : List (Nat × Nat × DocId × Nat × Nat)) : Except PyErr SqliteBackend :=
  if fileExists then
    if numBands ≠ numBands ∧ numBands > 0 then Except.error PyErr.runtimeError
    else Except.ok { numBands := numBands, empty := false, emtpy := none, rows := fileRows }
  else Except.ok { numBands := numBands, empty := true, emtpy := none, rows := [] }

/-- Embeds `SqliteBackend.is_empty` (lines 135-136). -/
def is_empty (st : SqliteBackend) : Bool := st.empty

/-- Embeds `SqliteBackend.doc_exists` (lines 156-163): short-circuits on
`self.empty`, otherwise counts matching rows. -/
def doc_exists (st : SqliteBackend) (docId : DocId) : Bool :=
  if st.empty then false
  else st.rows.any (fun r => r.2.2.1 = docId)

/-- Embeds `SqliteBackend.add_fingerprint(bins_buckets, fingerprint, doc_id)`
(lines 138-154): early-returns `False` when `doc_exists`, otherwise inserts
one row per (band, bucket) pair and signature position and returns
`rows > 0`.  Line 153 assigns the fresh attribute `self.emtpy` instead of
`self.empty`, so `self.empty` is never updated by an insert. -/
def add_fingerprint (st : SqliteBackend) (binsBuckets : List (Nat × Nat))
    (fingerprint : Fp) (docId : DocId) : Bool × SqliteBackend :=
  if st.doc_exists docId then (false, st)
  else
    let values := binsBuckets.bind (fun bb =>
      fingerprint.enum.map (fun ip => (bb.1, bb.2, docId, ip.2, ip.1)))
    let st' := { st with
      rows := st.rows ++ values
      emtpy := if st.empty ∧ values.length > 0 then some false else st.emtpy }
    (values.length > 0, st')

end SqliteBackend

/-- A concrete stand-in for CPython's deterministic `hash(tuple(...))`,
used to evaluate the embedding on concrete states.  Like the interpreter's
tuple hash, it is a fixed mixing function that distinguishes the small
tuples appearing in the concrete theorems below. -/
def hashModel (l : List Nat) : Nat := l.foldl (fun a x => 1000003 * a + x + 1) 0

/-! ## The LSH cache (`Cache`, cache.py lines 16-194)

The constructor always builds its backend as `DictBackend(num_bands, ...)`,
so the cache's band count equals the backend's and the cache-level
operations below read it from the backend state.  CPython's
`hash(tuple(bucket))` is the explicit parameter `hashT`. -/

namespace Cache

/-- The band slice of a fingerprint: for `len(fingerprint)` divisible by
`num_bands` (asserted by the constructor), `np.array_split(fingerprint, B)`
yields the `B` contiguous slices of width `len(fingerprint) / B`. -/
def bandSlice (numBands b : Nat) (fp : Fp) : Fp :=
  (fp.drop (b * (fp.length / numBands))).take (fp.length / numBands)

/-- Embeds `Cache.bins_` (lines 62-63): the enumerated band slices. -/
def bins_ (numBands : Nat) (fp : Fp) : List (Nat × Fp) :=
  (List.range numBands).map (fun b => (b, bandSlice numBands b fp))

/-- Embeds `Cache.add_fingerprint(fingerprint, doc_id)` (lines 76-83), dict-backend
branch: one backend `add_fingerprint` per band, keyed by the hash of the
band slice. -/
def add_fingerprint (hashT : List Nat → Nat) (st : DictBackend) (fp : Fp)
    (docId : DocId) : DictBackend :=
  (bins_ st.numBands fp).foldl
    (fun s bs => s.add_fingerprint bs.1 (hashT bs.2) fp docId) st

/-- Embeds `Cache.remove_id(doc_id)` (lines 113-119): look the fingerprint up,
remove the id from its bucket in every band, then delete the fingerprint.
An error raised by the initial lookup precedes any mutation. -/
def remove_id (hashT : List Nat → Nat) (st : DictBackend) (docId : DocId) :
    Except PyErr DictBackend := do
  let fp ← st.get_fingerprint docId
  let st1 ← (bins_ st.numBands fp).foldlM
    (fun s bs => s.remove_docid bs.1 (hashT bs.2) docId) st
  st1.remove_fingerprint docId

/-- Embeds `Cache.__init__(hasher, num_bands=10, backend='dict', ...)`
(lines 25-60).  `hasher.num_seeds` — the signature length K — is the seed
count of the MinHasher; the copy of `minhash.py` in the tree is truncated
and lacks the `num_seeds` attribute read here, so K is an explicit argument,
per the spec ("K is the signature length").  Steps in source order: select
the backend (`'dict'` or `ValueError`), then
`assert hasher.num_seeds % num_bands == 0`.  The trailing try/except block
(lines 52-60) calls the backend instance, raising `TypeError`, which
`except Exception: pass` swallows with no state effect. -/
def init (numSeeds : Nat) (numBands : Nat) (backend : String) :
    Except PyErr DictBackend :=
  if backend ≠ "dict" then Except.error PyErr.valueError
  else if numSeeds % numBands = 0 then Except.ok (DictBackend.init numBands)
  else Except.error PyErr.assertionError

/-- Embeds `Cache.clear` (lines 65-67); the hasher's memo cache is not backend
state. -/
def clear (st : DictBackend) : DictBackend := st.clear

end Cache
/-! ## The index invariants (claim C2) -/

/-- The bucket key of band `b` for a fingerprint: `hash(tuple(bucket))` of
the band slice, as computed by every cache-level operation. -/
def bandKey (hashT : List Nat → Nat) (numBands b : Nat) (fp : Fp) : Nat :=
  hashT (Cache.bandSlice numBands b fp)

/-- Structural well-formedness of a backend state, as the Cache constructor
creates it and every operation maintains it: the band list has `num_bands`
entries and every band dict, as well as the fingerprint dict, has unique
keys (every Python dict does, by construction). -/
def WFState (st : DictBackend) : Prop :=
  st.docIds.length = st.numBands
  ∧ (∀ band ∈ st.docIds, (keysKV band).Nodup)
  ∧ (keysKV (st.fingerprints.getD [])).Nodup

/-- Spec invariant 1: every `(band, bucket, doc_id)` entry in the bucket maps
points at a stored fingerprint whose band slice hashes to that bucket key. -/
def BucketsSound (hashT : List Nat → Nat) (st : DictBackend) : Prop :=
  ∀ b, b < st.docIds.length → ∀ p ∈ st.docIds.getD b [], ∀ d ∈ p.2,
    ∃ f, st.fpAt d = some f ∧ bandKey hashT st.numBands b f = p.1

/-- Spec invariant 2: every doc_id with a stored fingerprint is a member of
the bucket keyed by its fingerprint's band slice, in every band. -/
def FpsBucketed (hashT : List Nat → Nat) (st : DictBackend) : Prop :=
  ∀ d f, st.fpAt d = some f → ∀ b, b < st.numBands →
    d ∈ ((lookupKV (st.docIds.getD b []) (bandKey hashT st.numBands b f)).getD [])

/-- The C2 invariants, together with structural well-formedness. -/
def CacheInv (hashT : List Nat → Nat) (st : DictBackend) : Prop :=
  WFState st ∧ BucketsSound hashT st ∧ FpsBucketed hashT st

/-- The top-level mutating operations of the Cache. -/
inductive CacheOp where
  | insert (fp : Fp) (d : DocId)
  | remove (d : DocId)
  | clear

/-- Apply one top-level Cache operation to the backend state.  A failed
removal (unknown id) raises from the initial fingerprint lookup before any
mutation (`remove_id_absent_error`), so the state after the exception is the
original one; under the invariant the removal of a present id always
succeeds, so the error branch never discards a partial mutation. -/
def applyOp (hashT : List Nat → Nat) (op : CacheOp) (st : DictBackend) :
    DictBackend :=
  match op with
  | CacheOp.insert fp d => Cache.add_fingerprint hashT st fp d
  | CacheOp.remove d =>
    match Cache.remove_id hashT st d with
    | Except.ok st' => st'
    | Except.error _ => st
  | CacheOp.clear => Cache.clear st

/-! ## The Jaccard estimator (claim C4) -/

/-- Positionwise agreement count of two signatures. -/
def matchCount (a b : Fp) : Nat := (List.zip a b).countP (fun p => p.1 == p.2)

/-- Modelled from the spec: `MinHasher.jaccard` is missing from the tree —
the copy of `minhash.py` under src is truncated after `fingerprint`, while
its callers (cache.py `filter_candidates`, the tests) remain.  The spec
defines the estimator as `count(i : a[i] == b[i]) / K` over two length-K
signatures; the division is exact (rational) here, the floating-point
representation being immaterial to the claims proved. -/
def jaccard (a b : Fp) : ℚ := (matchCount a b : ℚ) / (a.length : ℚ)

/-! ## Duplicate lookup (`get_duplicates_of` / `is_duplicate`, cache.py
lines 139-194) -/

namespace Cache

/-- Embeds `Cache.filter_candidates(candidate_id_pairs, min_jaccard)` (lines
85-111), fully consumed: for each id pair, look both fingerprints up and
keep the pair when the estimated Jaccard similarity exceeds the bound
(`None` meaning 0).  An error from a lookup propagates out of the
generator. -/
def filter_candidates (st : DictBackend) (pairs : List (DocId × DocId))
    (minJaccard : Option ℚ) : Except PyErr (List (DocId × DocId)) :=
  pairs.foldlM (fun acc p => do
    let f1 ← st.get_fingerprint p.1
    let f2 ← st.get_fingerprint p.2
    pure (if jaccard f1 f2 > minJaccard.getD 0 then acc ++ [p] else acc)) []

/-- The banded candidate loop of `get_duplicates_of` (lines 153-173): first
component, the outcome of fully consuming the generator (the `_filter`
deduplication is the accumulator-membership test); second component, the
backend state after the `finally` block ran.  The loop body itself never
mutates the backend, so the state after an early close of the generator
equals the state after full consumption, and the cleanup also runs when an
error aborts the loop.  An exception raised by the cleanup removal itself
would replace the in-flight one; after a successful sentinel insert this
cannot happen (the sentinel is a member of exactly the buckets the removal
visits — see `claim_C9_state_restored`), and the state component is then the
pre-cleanup state. -/
def dupScan (hashT : List Nat → Nat) (st1 : DictBackend) (fp : Fp)
    (docId : DocId) (minJaccard : Option ℚ) (cleanup : Bool) :
    Except PyErr (List DocId) × DictBackend :=
  ((Cache.bins_ st1.numBands fp).foldlM
      (fun (acc : List DocId) bs =>
        ((st1.get_bucket bs.1 (hashT bs.2)).filter (fun x => x ≠ docId)).foldlM
          (fun acc2 d2 => do
            let ps ← filter_candidates st1 [(docId, d2)] minJaccard
            pure (ps.foldl (fun a p => if p.2 ∈ a then a else a ++ [p.2]) acc2))
          acc)
      [],
   if cleanup then
     match Cache.remove_id hashT st1 (-1) with
     | Except.ok st2 => st2
     | Except.error _ => st1
   else st1)

/-- The sentinel path of `get_duplicates_of` (lines 143-151): with document
bytes supplied, the document is added under the reserved id -1 and the scan
runs with cleanup; with no document, `ValueError` is raised.  The `doc`
argument stands for the fingerprint `self.hasher.fingerprint` would produce
for the document bytes (the MinHash kernel `cMinhash.minhash` itself is not
needed by any claim). -/
def sentinel_scan (hashT : List Nat → Nat) (st : DictBackend)
    (doc : Option Fp) (minJaccard : Option ℚ) :
    Except PyErr (List DocId) × DictBackend :=
  match doc with
  | some f =>
    match (Cache.add_fingerprint hashT st f (-1)).get_fingerprint (-1) with
    | Except.ok fp =>
      dupScan hashT (Cache.add_fingerprint hashT st f (-1)) fp (-1) minJaccard true
    | Except.error e => (Except.error e, Cache.add_fingerprint hashT st f (-1))
  | none => (Except.error PyErr.valueError, st)

/-- Embeds `Cache.get_duplicates_of(doc, doc_id, min_jaccard)` (lines 139-173).
Notes, straight from the source:
* `get_fingerprint(None)` raises `KeyError` (its `doc_id is None` guard),
  which the `except KeyError` catches, so `doc_id = None` takes the sentinel
  path; a `TypeError` (uninitialized fingerprint dict, id given) is not
  caught and propagates;
* the candidate expression at line 167 reads
  `self.backend.get_bucket(bin_i, bucket_id) - j[-1])` — not syntactically
  valid Python (unbalanced parenthesis, undefined name `j`).  Modelled from
  the spec: `is_duplicate` is "true iff `duplicates_of(doc_bytes,
  min_similarity) \ {doc_id}` is non-empty" and delegates the exclusion to
  this function's `doc_id` parameter, so the bucket is taken minus
  `{doc_id}` (the sentinel `-1` on the sentinel path). -/
def get_duplicates_of (hashT : List Nat → Nat) (st : DictBackend)
    (doc : Option Fp) (docId : Option DocId) (minJaccard : Option ℚ) :
    Except PyErr (List DocId) × DictBackend :=
  match docId with
  | none => sentinel_scan hashT st doc minJaccard
  | some di =>
    match st.get_fingerprint di with
    | Except.ok fp => dupScan hashT st fp di minJaccard false
    | Except.error PyErr.keyError => sentinel_scan hashT st doc minJaccard
    | Except.error e => (Except.error e, st)

/-- Embeds `Cache.is_duplicate(doc, doc_id=None, min_similarity=0.9)` (lines
179-194): early false when `backend.is_empty()`; a given doc_id is tested
for membership in `self.backend._fingerprints` (a `TypeError` when that
dict is still `None`); otherwise true iff pulling the first element of the
`get_duplicates_of` generator succeeds (`StopIteration` → false; the state
after `next` plus the generator's disposal equals the state after full
consumption, the loop being mutation-free).  Errors escaping the generator
propagate. -/
def is_duplicate (hashT : List Nat → Nat) (st : DictBackend) (doc : Option Fp)
    (docId : Option DocId) (minSimilarity : ℚ) :
    Except PyErr (Bool × DictBackend) :=
  if st.is_empty then Except.ok (false, st)
  else
    match docId, st.fingerprints with
    | some _, none => Except.error PyErr.typeError
    | some di, some m =>
      if (lookupKV m di).isSome then Except.ok (true, st)
      else
        match get_duplicates_of hashT st doc docId (some minSimilarity) with
        | (Except.ok l, st') => Except.ok (!l.isEmpty, st')
        | (Except.error e, _) => Except.error e
    | none, _ =>
      match get_duplicates_of hashT st doc docId (some minSimilarity) with
      | (Except.ok l, st') => Except.ok (!l.isEmpty, st')
      | (Except.error e, _) => Except.error e

end Cache

section AssocLemmas

variable {κ : Type} {β : Type} [DecidableEq κ]

@[simp] theorem lookupKV_nil (k : κ) : lookupKV ([] : List (κ × β)) k = none := rfl

@[simp] theorem lookupKV_cons (p : κ × β) (m : List (κ × β)) (k : κ) :
    lookupKV (p :: m) k = if p.1 = k then some p.2 else lookupKV m k := rfl

theorem lookupKV_append_left {m₁ m₂ : List (κ × β)} {k : κ}
    (h : lookupKV m₁ k = none) : lookupKV (m₁ ++ m₂) k = lookupKV m₂ k := by
  induction m₁ with
  | nil => simp
  | cons p m ih =>
    simp only [lookupKV_cons] at h ⊢
    split at h
    · exact absurd h (by simp)
    · simpa [*] using ih h

theorem lookupKV_setKV_self (m : List (κ × β)) (k : κ) (v : β) :
    lookupKV (setKV m k v) k = some v := by
  induction m with
  | nil => simp [setKV]
  | cons p m ih =>
    by_cases h : p.1 = k <;> simp [setKV, h, ih]

theorem lookupKV_setKV_ne (m : List (κ × β)) (k k' : κ) (v : β) (h : k' ≠ k) :
    lookupKV (setKV m k v) k' = lookupKV m k' := by
  induction m with
  | nil => simp [setKV, Ne.symm h]
  | cons p m ih =>
    by_cases hp : p.1 = k
    · have h2 : ¬(p.1 = k') := by rw [hp]; exact Ne.symm h
      simp [setKV, hp, Ne.symm h, h2]
    · simp only [setKV, if_neg hp, lookupKV_cons]
      by_cases hpk : p.1 = k' <;> simp [hpk, ih]

theorem setKV_of_lookup_none {m : List (κ × β)} {k : κ} (v : β)
    (h : lookupKV m k = none) : setKV m k v = m ++ [(k, v)] := by
  induction m with
  | nil => simp [setKV]
  | cons p m ih =>
    simp only [lookupKV_cons] at h
    split at h
    · exact absurd h (by simp)
    · simpa [setKV, *] using ih h

theorem setKV_lookup_self {m : List (κ × β)} {k : κ} {v : β}
    (h : lookupKV m k = some v) : setKV m k v = m := by
  induction m with
  | nil => simp at h
  | cons p m ih =>
    simp only [lookupKV_cons] at h
    by_cases hp : p.1 = k
    · simp only [if_pos hp] at h
      have hv : p.2 = v := Option.some.inj h
      obtain ⟨a, b⟩ := p
      simp only at hp hv
      subst hp
      subst hv
      simp [setKV]
    · simp only [if_neg hp] at h
      simp [setKV, hp, ih h]

theorem delKV_append_of_lookup_none {m : List (κ × β)} {k : κ} (v : β)
    (h : lookupKV m k = none) : delKV (m ++ [(k, v)]) k = m := by
  induction m with
  | nil => simp [delKV]
  | cons p m ih =>
    simp only [lookupKV_cons] at h
    split at h
    · exact absurd h (by simp)
    · simpa [delKV, *] using ih h

theorem lookupKV_delKV_ne (m : List (κ × β)) (k k' : κ) (h : k' ≠ k) :
    lookupKV (delKV m k) k' = lookupKV m k' := by
  induction m with
  | nil => simp [delKV]
  | cons p m ih =>
    by_cases hp : p.1 = k
    · have h2 : ¬(p.1 = k') := by rw [hp]; exact Ne.symm h
      simp [delKV, hp, h2, Ne.symm h]
    · simp only [delKV, if_neg hp, lookupKV_cons]
      by_cases hpk : p.1 = k' <;> simp [hpk, ih]

theorem lookupKV_delKV_self {m : List (κ × β)} {k : κ} (h : (keysKV m).Nodup) :
    lookupKV (delKV m k) k = none := by
  induction m with
  | nil => simp [delKV]
  | cons p m ih =>
    simp only [keysKV, List.map_cons, List.nodup_cons] at h
    by_cases hp : p.1 = k
    · subst hp
      simp only [delKV, if_pos rfl]
      cases hl : lookupKV m p.1 with
      | none => exact hl
      | some v =>
        exfalso
        have : p.1 ∈ m.map Prod.fst := by
          clear h ih
          induction m with
          | nil => simp at hl
          | cons q m ihq =>
            simp only [lookupKV_cons] at hl
            by_cases hq : q.1 = p.1
            · simp [hq]
            · simp only [if_neg hq] at hl
              simp [ihq hl]
        exact h.1 this
    · simp only [delKV, if_neg hp, lookupKV_cons, if_neg hp]
      exact ih h.2

theorem mem_of_lookupKV_some {m : List (κ × β)} {k : κ} {v : β}
    (h : lookupKV m k = some v) : (k, v) ∈ m := by
  induction m with
  | nil => simp at h
  | cons p m ih =>
    simp only [lookupKV_cons] at h
    by_cases hp : p.1 = k
    · simp only [if_pos hp] at h
      have hv : p.2 = v := Option.some.inj h
      obtain ⟨a, b⟩ := p
      simp only at hp hv
      subst hp
      subst hv
      exact List.mem_cons_self _ _
    · simp only [if_neg hp] at h
      exact List.mem_cons_of_mem _ (ih h)

theorem lookupKV_eq_none_iff {m : List (κ × β)} {k : κ} :
    lookupKV m k = none ↔ k ∉ keysKV m := by
  induction m with
  | nil => simp [keysKV]
  | cons p m ih =>
    by_cases hp : p.1 = k
    · simp [keysKV, hp]
    · simp [keysKV, hp, ih, Ne.symm hp]

theorem mem_keysKV_of_mem {m : List (κ × β)} {p : κ × β} (h : p ∈ m) :
    p.1 ∈ keysKV m := List.mem_map_of_mem Prod.fst h

theorem lookupKV_append_single_ne (m : List (κ × β)) (k k' : κ) (v : β)
    (h : k' ≠ k) : lookupKV (m ++ [(k, v)]) k' = lookupKV m k' := by
  induction m with
  | nil => simp [Ne.symm h]
  | cons p m ih => by_cases hp : p.1 = k' <;> simp [hp, ih]

theorem setKV_setKV (m : List (κ × β)) (k : κ) (v v' : β) :
    setKV (setKV m k v) k v' = setKV m k v' := by
  induction m with
  | nil => simp [setKV]
  | cons p m ih => by_cases hp : p.1 = k <;> simp [setKV, hp, ih]

theorem mem_delKV_key_ne {m : List (κ × β)} {k : κ} {p : κ × β}
    (hnd : (keysKV m).Nodup) (hp : p ∈ delKV m k) : p ∈ m ∧ p.1 ≠ k := by
  induction m with
  | nil => simp [delKV] at hp
  | cons q m ih =>
    simp only [keysKV, List.map_cons, List.nodup_cons] at hnd
    by_cases hq : q.1 = k
    · rw [delKV, if_pos hq] at hp
      refine ⟨List.mem_cons_of_mem _ hp, fun hpk => ?_⟩
      exact hnd.1 (hq ▸ hpk ▸ mem_keysKV_of_mem hp)
    · rw [delKV, if_neg hq] at hp
      rcases List.mem_cons.mp hp with h1 | h1
      · subst h1
        exact ⟨List.mem_cons_self _ _, hq⟩
      · obtain ⟨h2, h3⟩ := ih hnd.2 h1
        exact ⟨List.mem_cons_of_mem _ h2, h3⟩

theorem mem_setKV {m : List (κ × β)} {k : κ} {v : β} {p : κ × β}
    (hnd : (keysKV m).Nodup) (h : p ∈ setKV m k v) :
    p = (k, v) ∨ (p ∈ m ∧ p.1 ≠ k) := by
  induction m with
  | nil =>
    rw [show setKV ([] : List (κ × β)) k v = [(k, v)] from rfl] at h
    exact Or.inl (List.mem_singleton.mp h)
  | cons q m ih =>
    simp only [keysKV, List.map_cons, List.nodup_cons] at hnd
    by_cases hq : q.1 = k
    · rw [show setKV (q :: m) k v = (k, v) :: m from by simp [setKV, hq]] at h
      rcases List.mem_cons.mp h with h1 | h1
      · exact Or.inl h1
      · refine Or.inr ⟨List.mem_cons_of_mem _ h1, fun hpk => ?_⟩
        exact hnd.1 (by rw [hq, ← hpk]; exact mem_keysKV_of_mem h1)
    · rw [show setKV (q :: m) k v = q :: setKV m k v from by simp [setKV, hq]] at h
      rcases List.mem_cons.mp h with h1 | h1
      · subst h1
        exact Or.inr ⟨List.mem_cons_self _ _, hq⟩
      · rcases ih hnd.2 h1 with h2 | h2
        · exact Or.inl h2
        · exact Or.inr ⟨List.mem_cons_of_mem _ h2.1, h2.2⟩

theorem mem_delKV {m : List (κ × β)} {k : κ} {p : κ × β} (h : p ∈ delKV m k) :
    p ∈ m := by
  induction m with
  | nil => simp [delKV] at h
  | cons q m ih =>
    by_cases hq : q.1 = k
    · simp only [delKV, if_pos hq] at h
      exact List.mem_cons_of_mem _ h
    · simp only [delKV, if_neg hq, List.mem_cons] at h
      rcases h with h | h
      · simp [h]
      · exact List.mem_cons_of_mem _ (ih h)

theorem keysKV_setKV_nodup {m : List (κ × β)} {k : κ} {v : β}
    (hnd : (keysKV m).Nodup) : (keysKV (setKV m k v)).Nodup := by
  induction m with
  | nil => simp [setKV, keysKV]
  | cons q m ih =>
    simp only [keysKV, List.map_cons, List.nodup_cons] at hnd
    by_cases hq : q.1 = k
    · subst hq
      simpa [setKV, keysKV] using hnd
    · simp only [setKV, if_neg hq, keysKV, List.map_cons, List.nodup_cons]
      refine ⟨?_, ih hnd.2⟩
      intro hmem
      -- q.1 is a key of setKV m k v; it is either k or an old key
      have : q.1 = k ∨ q.1 ∈ keysKV m := by
        rcases List.mem_map.mp hmem with ⟨p, hp, hpq⟩
        rcases mem_setKV hnd.2 hp with h' | h'
        · left; rw [← hpq, h']
        · right; exact hpq ▸ mem_keysKV_of_mem h'.1
      rcases this with h' | h'
      · exact hq h'
      · exact hnd.1 h'

theorem keysKV_delKV_nodup {m : List (κ × β)} {k : κ}
    (hnd : (keysKV m).Nodup) : (keysKV (delKV m k)).Nodup := by
  induction m with
  | nil => simp [delKV, keysKV]
  | cons q m ih =>
    simp only [keysKV, List.map_cons, List.nodup_cons] at hnd
    by_cases hq : q.1 = k
    · simpa [delKV, hq, keysKV] using hnd.2
    · simp only [delKV, if_neg hq, keysKV, List.map_cons, List.nodup_cons]
      refine ⟨fun hmem => ?_, ih hnd.2⟩
      rcases List.mem_map.mp hmem with ⟨p, hp, hpq⟩
      exact hnd.1 (hpq ▸ mem_keysKV_of_mem (mem_delKV hp))

end AssocLemmas

theorem mem_insertSet {x d : DocId} {s : List DocId} (h : x ∈ insertSet d s) :
    x = d ∨ x ∈ s := by
  unfold insertSet at h
  by_cases hd : d ∈ s
  · rw [if_pos hd] at h
    exact Or.inr h
  · rw [if_neg hd] at h
    rcases List.mem_append.mp h with h1 | h1
    · exact Or.inr h1
    · exact Or.inl (List.mem_singleton.mp h1)

theorem self_mem_insertSet (d : DocId) (s : List DocId) : d ∈ insertSet d s := by
  unfold insertSet
  by_cases hd : d ∈ s <;> simp [hd]

theorem mem_insertSet_of_mem {x : DocId} (d : DocId) {s : List DocId}
    (h : x ∈ s) : x ∈ insertSet d s := by
  unfold insertSet
  by_cases hd : d ∈ s <;> simp [hd, h]

@[simp] theorem modifyIdx_length (l : List α) (n : Nat) (f : α → α) :
    (modifyIdx l n f).length = l.length := by
  induction l generalizing n with
  | nil => rfl
  | cons a l ih =>
    cases n with
    | zero => rfl
    | succ n => simp [modifyIdx, ih]

theorem modifyIdx_getD (l : List α) (n : Nat) (f : α → α) (i : Nat) (dflt : α) :
    (modifyIdx l n f).getD i dflt =
      if i = n ∧ i < l.length then f (l.getD i dflt) else l.getD i dflt := by
  induction l generalizing n i with
  | nil => simp [modifyIdx]
  | cons a l ih =>
    cases n with
    | zero =>
      cases i with
      | zero => simp [modifyIdx]
      | succ i => simp [modifyIdx]
    | succ n =>
      cases i with
      | zero => simp [modifyIdx]
      | succ i =>
        simp only [modifyIdx, List.getD_cons_succ, List.length_cons, ih]
        by_cases hi : i = n ∧ i < l.length
        · simp [hi, Nat.succ_lt_succ hi.2]
        · have : ¬(i + 1 = n + 1 ∧ i + 1 < l.length + 1) := by
            intro hc
            exact hi ⟨Nat.succ_injective hc.1, Nat.lt_of_succ_lt_succ hc.2⟩
          simp [hi, this]

/-- C1: the claim "is_empty() returns true iff zero documents are stored"
fails on the code for both backends.  A freshly constructed in-memory backend
with two bands reports non-empty (`is_empty` tests `self._doc_ids`, a
non-empty list of band dicts, instead of the stored documents), and the
sqlite backend still reports empty right after a document has been stored
(`add_fingerprint` updates the misspelled attribute `emtpy`). -/
theorem claim_C1_is_empty_bug :
    DictBackend.is_empty (DictBackend.init 2) = false
    ∧ (SqliteBackend.add_fingerprint
        { numBands := 10, empty := true, emtpy := none, rows := [] }
        [(0, 7)] [3, 4] 0).1 = true
    ∧ (SqliteBackend.add_fingerprint
        { numBands := 10, empty := true, emtpy := none, rows := [] }
        [(0, 7)] [3, 4] 0).2.is_empty = true := by
  decide

/-- C10: on a freshly constructed in-memory backend (fingerprint dict still
`None`), `get_fingerprint` raises `TypeError` for every (non-null) id from
the membership test on `None`, whereas a backend that has stored at least
one fingerprint raises `KeyError` for an absent id — a different error. -/
theorem claim_C10_fresh_get_fingerprint_typeerror (numBands : Nat) (d : DocId)
    (st : DictBackend) (m : List (DocId × Fp)) (hm : st.fingerprints = some m)
    (hne : m ≠ []) (habs : lookupKV m d = none) :
    (DictBackend.init numBands).get_fingerprint d = Except.error PyErr.typeError
    ∧ st.get_fingerprint d = Except.error PyErr.keyError
    ∧ PyErr.typeError ≠ PyErr.keyError := by
  refine ⟨rfl, ?_, by decide⟩
  simp [DictBackend.get_fingerprint, hm, habs]

/-- Witness for C10 at a concrete backend holding one fingerprint. -/
theorem claim_C10_witness :
    (⟨some [(0, [5])], [[(7, [0])]], 1⟩ : DictBackend).fingerprints = some [(0, [5])]
    ∧ [((0 : DocId), [(5 : Nat)])] ≠ []
    ∧ lookupKV [((0 : DocId), [(5 : Nat)])] 1 = none
    ∧ ((DictBackend.init 3).get_fingerprint 1 = Except.error PyErr.typeError
       ∧ (⟨some [(0, [5])], [[(7, [0])]], 1⟩ : DictBackend).get_fingerprint 1
           = Except.error PyErr.keyError
       ∧ PyErr.typeError ≠ PyErr.keyError) :=
  ⟨rfl, by decide, by decide,
   claim_C10_fresh_get_fingerprint_typeerror 3 1 _ _ rfl (by decide) (by decide)⟩

/-- C8: the claim that reopening the sqlite file with a different positive
`num_bands` fails (and that `-1` adopts the stored value) is false on the
code: the guard compares the just-assigned `self.num_bands` with `num_bands`
— identically false — and no band count is stored in the file, so
construction on an existing file succeeds for every requested value, and
`-1` simply stays `-1`.  `test_backend.py::test_sqlite_existing_db` expects
a `RuntimeError` for the mismatching reopen, so the code contradicts its own
test. -/
theorem claim_C8_reopen_never_fails :
    SqliteBackend.init 10 true [(0, 7, 0, 3, 0)]
      = Except.ok { numBands := 10, empty := false, emtpy := none, rows := [(0, 7, 0, 3, 0)] }
    ∧ SqliteBackend.init (-1) true [(0, 7, 0, 3, 0)]
      = Except.ok { numBands := -1, empty := false, emtpy := none, rows := [(0, 7, 0, 3, 0)] } := by
  constructor <;> rfl

/-- C6: constructing a Cache whose signature length K is not divisible by
the band count B raises at construction time — the `assert` at cache.py
line 48 fires before any insert is possible.
`test_cache.py::test_invalid_settings` confirms `AssertionError` is the
configuration error the spec means. -/
theorem claim_C6_config_error (numSeeds numBands : Nat)
    (h : numSeeds % numBands ≠ 0) :
    Cache.init numSeeds numBands "dict" = Except.error PyErr.assertionError := by
  simp [Cache.init, h]

/-- Witness for C6 at the spec's example K = 100, B = 7. -/
theorem claim_C6_witness :
    100 % 7 ≠ 0 ∧ Cache.init 100 7 "dict" = Except.error PyErr.assertionError :=
  ⟨by decide, claim_C6_config_error 100 7 (by decide)⟩

/-- C3 counterexample: on the in-memory backend, adding a document whose id
is already present is not a no-op.  Starting from an empty one-band backend,
inserting fingerprint [1] under id 0 and then fingerprint [2] under the same
id changes the stored fingerprint (from [1] to [2]), so "the stored
fingerprint ... [is] unchanged by the second call" is false. -/
theorem claim_C3_counterexample :
    DictBackend.fpAt
      (Cache.add_fingerprint hashModel
        (Cache.add_fingerprint hashModel (DictBackend.init 1) [1] 0) [2] 0) 0
    ≠ DictBackend.fpAt
        (Cache.add_fingerprint hashModel (DictBackend.init 1) [1] 0) 0 := by
  decide

/-- C3 (amended): re-adding an existing doc_id is not guarded.  The
in-memory backend performs no presence check: the call raises nothing,
returns no boolean, and unconditionally stores the new fingerprint under the
id.  The sqlite backend's presence check is defeated because
`add_fingerprint` never updates `self.empty` (it writes the misspelled
`self.emtpy`), so as long as `empty` is still true a second add of the same
id returns `True` — not `False` — and appends duplicate rows. -/
theorem claim_C3_amended (st : DictBackend) (binI bucketId : Nat) (fp : Fp)
    (d : DocId) (sq : SqliteBackend) (bb : List (Nat × Nat)) (sfp : Fp)
    (hsq : sq.empty = true) (hbb : bb ≠ []) (hsfp : sfp ≠ []) :
    (st.add_fingerprint binI bucketId fp d).fpAt d = some fp
    ∧ ((sq.add_fingerprint bb sfp d).2.add_fingerprint bb sfp d).1 = true
    ∧ ((sq.add_fingerprint bb sfp d).2.add_fingerprint bb sfp d).2.rows.length
        > (sq.add_fingerprint bb sfp d).2.rows.length := by
  have hvals : (bb.bind (fun b2 =>
      sfp.enum.map (fun ip => (b2.1, b2.2, d, ip.2, ip.1)))) ≠ [] := by
    obtain ⟨b0, bbtl, rfl⟩ := List.exists_cons_of_ne_nil hbb
    obtain ⟨p0, sfptl, rfl⟩ := List.exists_cons_of_ne_nil hsfp
    simp [List.bind]
  have hlen : 0 < (bb.bind (fun b2 =>
      sfp.enum.map (fun ip => (b2.1, b2.2, d, ip.2, ip.1)))).length :=
    List.length_pos.mpr hvals
  have hde : ∀ s : SqliteBackend, s.empty = true → s.doc_exists d = false := by
    intro s hs
    simp [SqliteBackend.doc_exists, hs]
  have hfst : ∀ s : SqliteBackend, s.empty = true →
      (s.add_fingerprint bb sfp d).1 = true := by
    intro s hs
    simp only [SqliteBackend.add_fingerprint, hde s hs, Bool.false_eq_true, if_false]
    simpa using hlen
  have hrows : ∀ s : SqliteBackend, s.empty = true →
      (s.add_fingerprint bb sfp d).2.rows.length
        = s.rows.length + (bb.bind (fun b2 =>
            sfp.enum.map (fun ip => (b2.1, b2.2, d, ip.2, ip.1)))).length := by
    intro s hs
    simp [SqliteBackend.add_fingerprint, hde s hs]
  have hemp : ∀ s : SqliteBackend, s.empty = true →
      (s.add_fingerprint bb sfp d).2.empty = true := by
    intro s hs
    simp [SqliteBackend.add_fingerprint, hde s hs, hs]
  refine ⟨?_, ?_, ?_⟩
  · simp [DictBackend.add_fingerprint, DictBackend.fpAt, lookupKV_setKV_self]
  · exact hfst _ (hemp sq hsq)
  · rw [hrows _ (hemp sq hsq)]
    exact Nat.lt_add_of_pos_right hlen

/-- Witness for the amended C3. -/
theorem claim_C3_witness :
    ({ numBands := 4, empty := true, emtpy := none, rows := [] }
        : SqliteBackend).empty = true
    ∧ [((0 : Nat), (7 : Nat))] ≠ []
    ∧ [(3 : Nat)] ≠ []
    ∧ (((DictBackend.init 1).add_fingerprint 0 5 [9] 2).fpAt 2 = some [9]
       ∧ ((SqliteBackend.add_fingerprint
            { numBands := 4, empty := true, emtpy := none, rows := [] }
            [(0, 7)] [3] 0).2.add_fingerprint [(0, 7)] [3] 0).1 = true
       ∧ ((SqliteBackend.add_fingerprint
            { numBands := 4, empty := true, emtpy := none, rows := [] }
            [(0, 7)] [3] 0).2.add_fingerprint [(0, 7)] [3] 0).2.rows.length
           > (SqliteBackend.add_fingerprint
            { numBands := 4, empty := true, emtpy := none, rows := [] }
            [(0, 7)] [3] 0).2.rows.length) :=
  ⟨rfl, by decide, by decide,
   claim_C3_amended (DictBackend.init 1) 0 5 [9] 2
     { numBands := 4, empty := true, emtpy := none, rows := [] } [(0, 7)] [3]
     rfl (by decide) (by decide)⟩

/-- C7 counterexample: removing an absent id is not a no-op — it raises.  On
a backend holding exactly document 0, `remove_id(1)` raises `KeyError` from
the initial `get_fingerprint` lookup. -/
theorem claim_C7_counterexample :
    Cache.remove_id hashModel
      ⟨some [(0, [1])], [[(hashModel [1], [0])]], 1⟩ 1
      = Except.error PyErr.keyError := rfl

/-- Embeds `Cache.remove_id` propagates an error of the initial fingerprint lookup
unchanged (the body after the lookup is never reached). -/
theorem remove_id_of_get_error {hashT : List Nat → Nat} {st : DictBackend}
    {d : DocId} {e : PyErr} (h : st.get_fingerprint d = Except.error e) :
    Cache.remove_id hashT st d = Except.error e := by
  unfold Cache.remove_id
  rw [h]
  rfl

/-- Embeds `Cache.remove_id` of an id with no stored fingerprint fails at the
initial lookup with the error `get_fingerprint` raises there. -/
theorem remove_id_absent_error (hashT : List Nat → Nat) (st : DictBackend)
    (d : DocId) (habs : st.fpAt d = none) :
    Cache.remove_id hashT st d
      = Except.error (match st.fingerprints with
          | none => PyErr.typeError
          | some _ => PyErr.keyError) := by
  apply remove_id_of_get_error
  unfold DictBackend.fpAt at habs
  cases h : st.fingerprints with
  | none => simp [DictBackend.get_fingerprint, h]
  | some m =>
    rw [h] at habs
    simp only at habs
    simp [DictBackend.get_fingerprint, h, habs]

/-- C7 (amended): `remove_id` on an absent doc_id raises instead of being a
no-op — `KeyError` when a fingerprint map exists, `TypeError` when it was
never initialized — and the error comes from the initial fingerprint lookup,
before any mutation of the backend state. -/
theorem claim_C7_amended (hashT : List Nat → Nat) (st : DictBackend) (d : DocId)
    (habs : st.fpAt d = none) :
    Cache.remove_id hashT st d
      = Except.error (match st.fingerprints with
          | none => PyErr.typeError
          | some _ => PyErr.keyError) :=
  remove_id_absent_error hashT st d habs

/-- Witness for the amended C7 on a fresh two-band backend. -/
theorem claim_C7_witness :
    DictBackend.fpAt (DictBackend.init 2) 5 = none
    ∧ Cache.remove_id hashModel (DictBackend.init 2) 5
        = Except.error (match (DictBackend.init 2).fingerprints with
            | none => PyErr.typeError
            | some _ => PyErr.keyError) :=
  ⟨rfl, claim_C7_amended hashModel (DictBackend.init 2) 5 rfl⟩

/-! ## Per-band lemmas for the add / remove loop bodies -/

theorem lookupKV_addToBand_self (band : List (Nat × List DocId)) (k : Nat)
    (d : DocId) :
    lookupKV (addToBand band k d) k
      = some (insertSet d ((lookupKV band k).getD [])) := by
  unfold addToBand
  cases h : lookupKV band k with
  | none =>
    rw [lookupKV_append_left h]
    simp [insertSet]
  | some s => simp [lookupKV_setKV_self]

theorem lookupKV_addToBand_ne (band : List (Nat × List DocId)) (k k' : Nat)
    (d : DocId) (h : k' ≠ k) :
    lookupKV (addToBand band k d) k' = lookupKV band k' := by
  unfold addToBand
  cases hk : lookupKV band k with
  | none => exact lookupKV_append_single_ne band k k' [d] h
  | some s => exact lookupKV_setKV_ne band k k' (insertSet d s) h

theorem mem_addToBand {band : List (Nat × List DocId)} {k : Nat} {d : DocId}
    {p : Nat × List DocId} (hnd : (keysKV band).Nodup)
    (hp : p ∈ addToBand band k d) :
    (p ∈ band ∧ p.1 ≠ k) ∨ p = (k, insertSet d ((lookupKV band k).getD [])) := by
  unfold addToBand at hp
  cases h : lookupKV band k with
  | none =>
    rw [h] at hp
    rcases List.mem_append.mp hp with h1 | h1
    · by_cases hpk : p.1 = k
      · exact absurd (hpk ▸ mem_keysKV_of_mem h1) (lookupKV_eq_none_iff.mp h)
      · exact Or.inl ⟨h1, hpk⟩
    · right
      rw [List.mem_singleton.mp h1]
      simp [insertSet]
  | some s =>
    rw [h] at hp
    rcases mem_setKV hnd hp with h1 | h1
    · right
      simp [h1]
    · exact Or.inl h1

theorem keysKV_addToBand_nodup {band : List (Nat × List DocId)} {k : Nat}
    {d : DocId} (hnd : (keysKV band).Nodup) :
    (keysKV (addToBand band k d)).Nodup := by
  unfold addToBand
  cases h : lookupKV band k with
  | none =>
    have hk : k ∉ keysKV band := lookupKV_eq_none_iff.mp h
    have hkeys : keysKV (band ++ [(k, [d])]) = keysKV band ++ [k] := by
      simp [keysKV]
    rw [hkeys]
    refine List.Nodup.append hnd (List.nodup_singleton k) ?_
    intro x hx hx2
    rw [List.mem_singleton] at hx2
    exact hk (hx2 ▸ hx)
  | some s => exact keysKV_setKV_nodup hnd

theorem lookupKV_removeFromBand_self {band : List (Nat × List DocId)}
    {k : Nat} {d : DocId} (hnd : (keysKV band).Nodup) :
    lookupKV (removeFromBand band k d) k
      = (if (((lookupKV band k).getD []).filter (fun x => x ≠ d)).isEmpty
         then none
         else some (((lookupKV band k).getD []).filter (fun x => x ≠ d))) := by
  unfold removeFromBand
  by_cases h : (((lookupKV band k).getD []).filter (fun x => x ≠ d)).isEmpty = true
  · rw [if_pos h, if_pos h]
    exact lookupKV_delKV_self hnd
  · rw [if_neg h, if_neg h]
    exact lookupKV_setKV_self _ _ _

theorem lookupKV_removeFromBand_ne (band : List (Nat × List DocId))
    (k k' : Nat) (d : DocId) (h : k' ≠ k) :
    lookupKV (removeFromBand band k d) k' = lookupKV band k' := by
  unfold removeFromBand
  by_cases hc : (((lookupKV band k).getD []).filter (fun x => x ≠ d)).isEmpty = true
  · rw [if_pos hc]
    exact lookupKV_delKV_ne band k k' h
  · rw [if_neg hc]
    exact lookupKV_setKV_ne band k k' _ h

theorem mem_removeFromBand {band : List (Nat × List DocId)} {k : Nat}
    {d : DocId} {p : Nat × List DocId} (hnd : (keysKV band).Nodup)
    (hp : p ∈ removeFromBand band k d) :
    (p ∈ band ∧ p.1 ≠ k)
    ∨ p = (k, ((lookupKV band k).getD []).filter (fun x => x ≠ d)) := by
  unfold removeFromBand at hp
  by_cases hc : (((lookupKV band k).getD []).filter (fun x => x ≠ d)).isEmpty = true
  · rw [if_pos hc] at hp
    exact Or.inl (mem_delKV_key_ne hnd hp)
  · rw [if_neg hc] at hp
    rcases mem_setKV hnd hp with h1 | h1
    · exact Or.inr h1
    · exact Or.inl h1

theorem keysKV_removeFromBand_nodup {band : List (Nat × List DocId)} {k : Nat}
    {d : DocId} (hnd : (keysKV band).Nodup) :
    (keysKV (removeFromBand band k d)).Nodup := by
  unfold removeFromBand
  by_cases hc : (((lookupKV band k).getD []).filter (fun x => x ≠ d)).isEmpty = true
  · rw [if_pos hc]
    exact keysKV_delKV_nodup hnd
  · rw [if_neg hc]
    exact keysKV_setKV_nodup hnd

/-! ## Characterization of the cache-level insert loop -/

@[simp] theorem DictBackend.add_fingerprint_numBands (st : DictBackend)
    (b k : Nat) (fp : Fp) (d : DocId) :
    (st.add_fingerprint b k fp d).numBands = st.numBands := rfl

@[simp] theorem DictBackend.add_fingerprint_docIds (st : DictBackend)
    (b k : Nat) (fp : Fp) (d : DocId) :
    (st.add_fingerprint b k fp d).docIds
      = modifyIdx st.docIds b (fun band => addToBand band k d) := rfl

@[simp] theorem DictBackend.add_fingerprint_fps (st : DictBackend)
    (b k : Nat) (fp : Fp) (d : DocId) :
    (st.add_fingerprint b k fp d).fingerprints
      = some (setKV (st.fingerprints.getD []) d fp) := rfl

theorem range_add_numBands (κf : Nat → Nat) (fp : Fp) (d : DocId) (n : Nat)
    (st : DictBackend) :
    ((List.range n).foldl (fun s b => s.add_fingerprint b (κf b) fp d) st).numBands
      = st.numBands := by
  induction n with
  | zero => rfl
  | succ n ih =>
    rw [List.range_succ, List.foldl_append]
    simp [ih]

theorem range_add_docIds_length (κf : Nat → Nat) (fp : Fp) (d : DocId)
    (n : Nat) (st : DictBackend) :
    ((List.range n).foldl (fun s b => s.add_fingerprint b (κf b) fp d) st).docIds.length
      = st.docIds.length := by
  induction n with
  | zero => rfl
  | succ n ih =>
    rw [List.range_succ, List.foldl_append]
    simp [ih]

theorem range_add_docIds_getD (κf : Nat → Nat) (fp : Fp) (d : DocId) (n : Nat)
    (st : DictBackend) (i : Nat) :
    ((List.range n).foldl (fun s b => s.add_fingerprint b (κf b) fp d) st).docIds.getD i []
      = if i < n ∧ i < st.docIds.length
        then addToBand (st.docIds.getD i []) (κf i) d
        else st.docIds.getD i [] := by
  induction n with
  | zero => simp
  | succ n ih =>
    rw [List.range_succ, List.foldl_append]
    simp only [List.foldl_cons, List.foldl_nil, DictBackend.add_fingerprint_docIds]
    rw [modifyIdx_getD, range_add_docIds_length, ih]
    rcases Nat.lt_trichotomy i n with hi | hi | hi
    · have h1 : i ≠ n := Nat.ne_of_lt hi
      have h2 : i < n + 1 := Nat.lt_succ_of_lt hi
      by_cases hl : i < st.docIds.length <;> simp [h1, h2, hi, hl]
    · subst hi
      have h1 : ¬ i < i := Nat.lt_irrefl i
      have h2 : i < i + 1 := Nat.lt_succ_self i
      by_cases hl : i < st.docIds.length <;> simp [h1, h2, hl]
    · have h1 : i ≠ n := (Nat.ne_of_lt hi).symm
      have h2 : ¬ i < n + 1 := by omega
      have h3 : ¬ i < n := by omega
      simp [h1, h2, h3]

theorem range_add_fps (κf : Nat → Nat) (fp : Fp) (d : DocId) (n : Nat)
    (st : DictBackend) (hn : 0 < n) :
    ((List.range n).foldl (fun s b => s.add_fingerprint b (κf b) fp d) st).fingerprints
      = some (setKV (st.fingerprints.getD []) d fp) := by
  induction n with
  | zero => exact absurd hn (Nat.lt_irrefl 0)
  | succ n ih =>
    rw [List.range_succ, List.foldl_append]
    simp only [List.foldl_cons, List.foldl_nil, DictBackend.add_fingerprint_fps]
    cases Nat.eq_zero_or_pos n with
    | inl h0 =>
      subst h0
      simp
    | inr hpos =>
      rw [ih hpos]
      simp [setKV_setKV]

theorem cache_add_eq_range_foldl (hashT : List Nat → Nat) (st : DictBackend)
    (fp : Fp) (d : DocId) :
    Cache.add_fingerprint hashT st fp d
      = (List.range st.numBands).foldl
          (fun s b => s.add_fingerprint b (hashT (Cache.bandSlice st.numBands b fp)) fp d) st := by
  unfold Cache.add_fingerprint Cache.bins_
  rw [List.foldl_map]

/-! ## Characterization of the cache-level removal loop -/

theorem range_remove_spec (κf : Nat → Nat) (d : DocId) (n : Nat)
    (st : DictBackend)
    (hok : ∀ b, b < n → d ∈ ((lookupKV (st.docIds.getD b []) (κf b)).getD [])) :
    ∃ st',
      (List.range n).foldlM (fun s b => s.remove_docid b (κf b) d) st
        = Except.ok st'
      ∧ st'.fingerprints = st.fingerprints
      ∧ st'.numBands = st.numBands
      ∧ st'.docIds.length = st.docIds.length
      ∧ ∀ i, st'.docIds.getD i []
          = if i < n ∧ i < st.docIds.length
            then removeFromBand (st.docIds.getD i []) (κf i) d
            else st.docIds.getD i [] := by
  induction n with
  | zero => exact ⟨st, rfl, rfl, rfl, rfl, fun i => by simp⟩
  | succ n ih =>
    obtain ⟨st1, hfold, hfps, hnb, hlen, hgetD⟩ :=
      ih (fun b hb => hok b (Nat.lt_succ_of_lt hb))
    have hbk : lookupKV (st1.docIds.getD n []) (κf n)
        = lookupKV (st.docIds.getD n []) (κf n) := by
      rw [hgetD n]
      simp
    have hdmem := hok n (Nat.lt_succ_self n)
    cases hlk : lookupKV (st.docIds.getD n []) (κf n) with
    | none =>
      rw [hlk] at hdmem
      simp at hdmem
    | some s =>
      rw [hlk] at hdmem
      simp only [Option.getD_some] at hdmem
      have hstep : st1.remove_docid n (κf n) d = Except.ok
          { st1 with docIds :=
            (modifyIdx st1.docIds n (fun band => removeFromBand band (κf n) d)) } := by
        unfold DictBackend.remove_docid
        rw [hbk, hlk]
        simp [hdmem]
      refine ⟨{ st1 with docIds :=
          (modifyIdx st1.docIds n (fun band => removeFromBand band (κf n) d)) },
        ?_, hfps, hnb, by simp [hlen], ?_⟩
      · rw [List.range_succ, List.foldlM_append, hfold]
        show (st1.remove_docid n (κf n) d >>= fun s =>
          (List.foldlM (fun s b => s.remove_docid b (κf b) d) s [])) = _
        rw [hstep]
        rfl
      · intro i
        show (modifyIdx st1.docIds n (fun band => removeFromBand band (κf n) d)).getD i []
          = _
        rw [modifyIdx_getD, hlen, hgetD]
        rcases Nat.lt_trichotomy i n with hi | hi | hi
        · have h1 : i ≠ n := Nat.ne_of_lt hi
          have h2 : i < n + 1 := Nat.lt_succ_of_lt hi
          by_cases hl : i < st.docIds.length <;> simp [h1, h2, hi, hl]
        · subst hi
          have h1 : ¬ i < i := Nat.lt_irrefl i
          have h2 : i < i + 1 := Nat.lt_succ_self i
          by_cases hl : i < st.docIds.length <;> simp [h1, h2, hl]
        · have h1 : i ≠ n := (Nat.ne_of_lt hi).symm
          have h2 : ¬ i < n + 1 := by omega
          have h3 : ¬ i < n := by omega
          simp [h1, h2, h3]

theorem cache_remove_id_spec (hashT : List Nat → Nat) (st : DictBackend)
    (d : DocId) (m : List (DocId × Fp)) (fpd : Fp)
    (hm : st.fingerprints = some m) (hfp : lookupKV m d = some fpd)
    (hok : ∀ b, b < st.numBands →
      d ∈ ((lookupKV (st.docIds.getD b [])
            (hashT (Cache.bandSlice st.numBands b fpd))).getD [])) :
    ∃ st', Cache.remove_id hashT st d = Except.ok st'
      ∧ st'.fingerprints = some (delKV m d)
      ∧ st'.numBands = st.numBands
      ∧ st'.docIds.length = st.docIds.length
      ∧ ∀ i, st'.docIds.getD i []
          = if i < st.numBands ∧ i < st.docIds.length
            then removeFromBand (st.docIds.getD i [])
                   (hashT (Cache.bandSlice st.numBands i fpd)) d
            else st.docIds.getD i [] := by
  obtain ⟨st1, hfold, hfps, hnb, hlen, hgetD⟩ :=
    range_remove_spec (fun b => hashT (Cache.bandSlice st.numBands b fpd))
      d st.numBands st hok
  have hget : st.get_fingerprint d = Except.ok fpd := by
    unfold DictBackend.get_fingerprint
    rw [hm]
    simp [hfp]
  have hrf : st1.remove_fingerprint d
      = Except.ok { st1 with fingerprints := some (delKV m d) } := by
    unfold DictBackend.remove_fingerprint
    rw [hfps, hm]
    simp [hfp]
  refine ⟨{ st1 with fingerprints := some (delKV m d) }, ?_, rfl, hnb, hlen, hgetD⟩
  unfold Cache.remove_id
  rw [hget]
  show ((Cache.bins_ st.numBands fpd).foldlM
      (fun s bs => s.remove_docid bs.1 (hashT bs.2) d) st
      >>= fun st2 => st2.remove_fingerprint d) = _
  unfold Cache.bins_
  rw [List.foldlM_map]
  rw [hfold]
  show st1.remove_fingerprint d = _
  rw [hrf]

theorem fpAt_eq_lookup (st : DictBackend) (d : DocId) :
    st.fpAt d = lookupKV (st.fingerprints.getD []) d := by
  unfold DictBackend.fpAt
  cases st.fingerprints with
  | none => simp
  | some m => simp

theorem getD_replicate_self {α : Type} (x : α) (n b : Nat) :
    (List.replicate n x).getD b x = x := by
  induction n generalizing b with
  | zero => simp
  | succ n ih =>
    cases b with
    | zero => simp [List.replicate]
    | succ b => simp [List.replicate, ih]

theorem getD_mem_of_lt {α : Type} {l : List α} {b : Nat} (dflt : α)
    (hb : b < l.length) : l.getD b dflt ∈ l := by
  rw [List.getD_eq_getElem l dflt hb]
  exact List.getElem_mem hb

/-- A freshly constructed `DictBackend` satisfies the invariants. -/
theorem cacheInv_init (hashT : List Nat → Nat) (numBands : Nat) :
    CacheInv hashT (DictBackend.init numBands) := by
  refine ⟨⟨by simp [DictBackend.init], ?_, by simp [DictBackend.init, keysKV]⟩, ?_, ?_⟩
  · intro band hband
    rw [List.eq_of_mem_replicate hband]
    simp [keysKV]
  · intro b hb p hp d hd
    have : (DictBackend.init numBands).docIds.getD b [] = [] := by
      simp only [DictBackend.init]
      exact getD_replicate_self [] numBands b
    rw [this] at hp
    exact absurd hp (List.not_mem_nil p)
  · intro d f hf
    simp [DictBackend.fpAt, DictBackend.init] at hf

/-- Inserting a fingerprint under a fresh doc_id preserves the invariants. -/
theorem add_preserves_inv (hashT : List Nat → Nat) (st : DictBackend) (fp : Fp)
    (d : DocId) (hinv : CacheInv hashT st) (hfresh : st.fpAt d = none) :
    CacheInv hashT (Cache.add_fingerprint hashT st fp d) := by
  obtain ⟨⟨hlen, hbandnd, hfpnd⟩, hsound, hbuck⟩ := hinv
  rcases Nat.eq_zero_or_pos st.numBands with h0 | hpos
  · have hid : Cache.add_fingerprint hashT st fp d = st := by
      rw [cache_add_eq_range_foldl, h0]
      rfl
    rw [hid]
    exact ⟨⟨hlen, hbandnd, hfpnd⟩, hsound, hbuck⟩
  rw [cache_add_eq_range_foldl]
  generalize hstA : (List.range st.numBands).foldl
      (fun s b => s.add_fingerprint b (hashT (Cache.bandSlice st.numBands b fp)) fp d) st = stA
  have hnb : stA.numBands = st.numBands := by
    rw [← hstA]
    exact range_add_numBands _ fp d _ st
  have hln : stA.docIds.length = st.docIds.length := by
    rw [← hstA]
    exact range_add_docIds_length _ fp d _ st
  have hfpsA : stA.fingerprints = some (setKV (st.fingerprints.getD []) d fp) := by
    rw [← hstA]
    exact range_add_fps _ fp d _ st hpos
  have hgd : ∀ i, i < st.numBands → stA.docIds.getD i []
      = addToBand (st.docIds.getD i []) (hashT (Cache.bandSlice st.numBands i fp)) d := by
    intro i hi
    have h2 : i < st.docIds.length := by rw [hlen]; exact hi
    rw [← hstA, range_add_docIds_getD]
    simp [hi, h2]
  have hfpA : ∀ x, stA.fpAt x = if x = d then some fp else st.fpAt x := by
    intro x
    rw [fpAt_eq_lookup, hfpsA]
    by_cases hx : x = d
    · subst hx
      simp [lookupKV_setKV_self]
    · rw [if_neg hx]
      simp only [Option.getD_some]
      rw [lookupKV_setKV_ne _ _ _ _ hx, fpAt_eq_lookup]
  refine ⟨⟨?_, ?_, ?_⟩, ?_, ?_⟩
  · rw [hln, hnb, hlen]
  · intro band hband
    obtain ⟨i, hi, hbandi⟩ := List.mem_iff_getElem.mp hband
    have hiB : i < st.numBands := by
      rw [← hlen, ← hln]
      exact hi
    have hbeq : band = addToBand (st.docIds.getD i [])
        (hashT (Cache.bandSlice st.numBands i fp)) d := by
      rw [← hbandi, ← List.getD_eq_getElem stA.docIds [] hi]
      exact hgd i hiB
    rw [hbeq]
    exact keysKV_addToBand_nodup
      (hbandnd (st.docIds.getD i []) (getD_mem_of_lt [] (show i < st.docIds.length from by rw [hlen]; exact hiB)))
  · rw [hfpsA]
    simp only [Option.getD_some]
    exact keysKV_setKV_nodup hfpnd
  · -- invariant 1
    intro b hb p hp dd hdd
    have hbB : b < st.numBands := by
      rw [← hlen, ← hln]
      exact hb
    have hbL : b < st.docIds.length := by rw [hlen]; exact hbB
    rw [hgd b hbB] at hp
    have hbandnd_b := hbandnd (st.docIds.getD b []) (getD_mem_of_lt [] hbL)
    rcases mem_addToBand hbandnd_b hp with ⟨hpm, hpne⟩ | hpe
    · obtain ⟨f, hf, hkey⟩ := hsound b hbL p hpm dd hdd
      have hdne : dd ≠ d := by
        intro hdeq
        rw [hdeq, hfresh] at hf
        exact Option.noConfusion hf
      refine ⟨f, ?_, ?_⟩
      · rw [hfpA dd, if_neg hdne]
        exact hf
      · rw [show bandKey hashT stA.numBands b f = bandKey hashT st.numBands b f from by rw [hnb]]
        exact hkey
    · rw [hpe] at hdd ⊢
      simp only at hdd
      rcases mem_insertSet hdd with rfl | hdds
      · refine ⟨fp, ?_, ?_⟩
        · rw [hfpA dd, if_pos rfl]
        · rw [show bandKey hashT stA.numBands b fp = bandKey hashT st.numBands b fp from by rw [hnb]]
          rfl
      · cases hlk : lookupKV (st.docIds.getD b []) (hashT (Cache.bandSlice st.numBands b fp)) with
        | none =>
          rw [hlk] at hdds
          simp at hdds
        | some s =>
          rw [hlk] at hdds
          simp only [Option.getD_some] at hdds
          obtain ⟨f, hf, hkey⟩ := hsound b hbL _ (mem_of_lookupKV_some hlk) dd hdds
          have hdne : dd ≠ d := by
            intro hdeq
            rw [hdeq, hfresh] at hf
            exact Option.noConfusion hf
          refine ⟨f, ?_, ?_⟩
          · rw [hfpA dd, if_neg hdne]
            exact hf
          · rw [show bandKey hashT stA.numBands b f = bandKey hashT st.numBands b f from by rw [hnb]]
            simpa using hkey
  · -- invariant 2
    intro dd f hf b hb
    rw [hnb] at hb
    rw [hfpA dd] at hf
    by_cases hdd : dd = d
    · subst hdd
      rw [if_pos rfl] at hf
      have hfp2 : fp = f := Option.some.inj hf
      subst hfp2
      rw [hgd b hb]
      rw [show bandKey hashT stA.numBands b fp = hashT (Cache.bandSlice st.numBands b fp)
          from by rw [show bandKey hashT stA.numBands b fp = bandKey hashT st.numBands b fp from by rw [hnb]]; rfl]
      rw [lookupKV_addToBand_self]
      simp only [Option.getD_some]
      exact self_mem_insertSet _ _
    · rw [if_neg hdd] at hf
      have hold := hbuck dd f hf b hb
      rw [hgd b hb]
      rw [show bandKey hashT stA.numBands b f = bandKey hashT st.numBands b f from by rw [hnb]]
      by_cases hkk : bandKey hashT st.numBands b f = hashT (Cache.bandSlice st.numBands b fp)
      · rw [hkk, lookupKV_addToBand_self]
        simp only [Option.getD_some]
        apply mem_insertSet_of_mem
        rw [← hkk]
        exact hold
      · rw [lookupKV_addToBand_ne _ _ _ _ hkk]
        exact hold

/-- Removing a doc_id with a stored fingerprint succeeds and preserves the
invariants. -/
theorem remove_present_preserves_inv (hashT : List Nat → Nat)
    (st : DictBackend) (d : DocId) (fpd : Fp) (hinv : CacheInv hashT st)
    (hpres : st.fpAt d = some fpd) :
    ∃ st', Cache.remove_id hashT st d = Except.ok st' ∧ CacheInv hashT st' := by
  obtain ⟨⟨hlen, hbandnd, hfpnd⟩, hsound, hbuck⟩ := hinv
  cases hm : st.fingerprints with
  | none =>
    rw [fpAt_eq_lookup, hm] at hpres
    simp at hpres
  | some m =>
    have hlkm : lookupKV m d = some fpd := by
      rw [fpAt_eq_lookup, hm] at hpres
      simpa using hpres
    have hfpndm : (keysKV m).Nodup := by
      rw [hm] at hfpnd
      simpa using hfpnd
    have hfpSt : ∀ x, st.fpAt x = lookupKV m x := by
      intro x
      rw [fpAt_eq_lookup, hm]
      simp
    have hok : ∀ b, b < st.numBands →
        d ∈ ((lookupKV (st.docIds.getD b [])
              (hashT (Cache.bandSlice st.numBands b fpd))).getD []) := by
      intro b hb
      exact hbuck d fpd hpres b hb
    obtain ⟨st', hrun, hfps', hnb', hlen', hgd'⟩ :=
      cache_remove_id_spec hashT st d m fpd hm hlkm hok
    have hgd2 : ∀ i, i < st.numBands → st'.docIds.getD i []
        = removeFromBand (st.docIds.getD i [])
            (hashT (Cache.bandSlice st.numBands i fpd)) d := by
      intro i hi
      have h2 : i < st.docIds.length := by rw [hlen]; exact hi
      rw [hgd' i]
      simp [hi, h2]
    have hfpA : ∀ x, st'.fpAt x = if x = d then none else st.fpAt x := by
      intro x
      rw [fpAt_eq_lookup, hfps']
      simp only [Option.getD_some]
      by_cases hx : x = d
      · subst hx
        rw [if_pos rfl]
        exact lookupKV_delKV_self hfpndm
      · rw [if_neg hx, lookupKV_delKV_ne _ _ _ hx, hfpSt x]
    refine ⟨st', hrun, ⟨?_, ?_, ?_⟩, ?_, ?_⟩
    · rw [hlen', hnb', hlen]
    · intro band hband
      obtain ⟨i, hi, hbandi⟩ := List.mem_iff_getElem.mp hband
      have hiB : i < st.numBands := by
        rw [← hlen, ← hlen']
        exact hi
      have hbeq : band = removeFromBand (st.docIds.getD i [])
          (hashT (Cache.bandSlice st.numBands i fpd)) d := by
        rw [← hbandi, ← List.getD_eq_getElem st'.docIds [] hi]
        exact hgd2 i hiB
      rw [hbeq]
      exact keysKV_removeFromBand_nodup
        (hbandnd (st.docIds.getD i [])
          (getD_mem_of_lt [] (show i < st.docIds.length from by rw [hlen]; exact hiB)))
    · rw [hfps']
      simp only [Option.getD_some]
      exact keysKV_delKV_nodup hfpndm
    · -- invariant 1
      intro b hb p hp dd hdd
      have hbB : b < st.numBands := by
        rw [← hlen, ← hlen']
        exact hb
      have hbL : b < st.docIds.length := by rw [hlen]; exact hbB
      rw [hgd2 b hbB] at hp
      have hbandnd_b := hbandnd (st.docIds.getD b []) (getD_mem_of_lt [] hbL)
      rcases mem_removeFromBand hbandnd_b hp with ⟨hpm, hpne⟩ | hpe
      · obtain ⟨f, hf, hkey⟩ := hsound b hbL p hpm dd hdd
        have hdne : dd ≠ d := by
          intro hdeq
          subst hdeq
          rw [hpres] at hf
          have hffpd : fpd = f := Option.some.inj hf
          subst hffpd
          exact hpne hkey.symm
        refine ⟨f, ?_, ?_⟩
        · rw [hfpA dd, if_neg hdne]
          exact hf
        · rw [show bandKey hashT st'.numBands b f = bandKey hashT st.numBands b f from by rw [hnb']]
          exact hkey
      · rw [hpe] at hdd ⊢
        simp only at hdd
        obtain ⟨hdds₀, hddne'⟩ := List.mem_filter.mp hdd
        have hddne : dd ≠ d := by simpa using hddne'
        cases hlk : lookupKV (st.docIds.getD b [])
            (hashT (Cache.bandSlice st.numBands b fpd)) with
        | none =>
          rw [hlk] at hdds₀
          simp at hdds₀
        | some s =>
          rw [hlk] at hdds₀
          simp only [Option.getD_some] at hdds₀
          obtain ⟨f, hf, hkey⟩ := hsound b hbL _ (mem_of_lookupKV_some hlk) dd hdds₀
          refine ⟨f, ?_, ?_⟩
          · rw [hfpA dd, if_neg hddne]
            exact hf
          · rw [show bandKey hashT st'.numBands b f = bandKey hashT st.numBands b f from by rw [hnb']]
            simpa using hkey
    · -- invariant 2
      intro dd f hf b hb
      rw [hnb'] at hb
      rw [hfpA dd] at hf
      by_cases hdd : dd = d
      · rw [if_pos hdd] at hf
        exact Option.noConfusion hf
      · rw [if_neg hdd] at hf
        have hold := hbuck dd f hf b hb
        rw [show bandKey hashT st'.numBands b f = bandKey hashT st.numBands b f from by rw [hnb']]
        rw [hgd2 b hb]
        have hbL : b < st.docIds.length := by rw [hlen]; exact hb
        have hbandnd_b := hbandnd (st.docIds.getD b []) (getD_mem_of_lt [] hbL)
        by_cases hkk : bandKey hashT st.numBands b f
            = hashT (Cache.bandSlice st.numBands b fpd)
        · rw [hkk, lookupKV_removeFromBand_self hbandnd_b]
          have hmemf : dd ∈ (((lookupKV (st.docIds.getD b [])
              (hashT (Cache.bandSlice st.numBands b fpd))).getD []).filter
                (fun x => x ≠ d)) := by
            apply List.mem_filter.mpr
            refine ⟨?_, by simpa using hdd⟩
            rw [← hkk]
            exact hold
          have hne : ¬((((lookupKV (st.docIds.getD b [])
              (hashT (Cache.bandSlice st.numBands b fpd))).getD []).filter
                (fun x => x ≠ d)).isEmpty = true) := by
            intro he
            rw [List.isEmpty_iff] at he
            rw [he] at hmemf
            exact absurd hmemf (List.not_mem_nil dd)
          rw [if_neg hne]
          simpa using hmemf
        · rw [lookupKV_removeFromBand_ne _ _ _ _ hkk]
          exact hold

/-- C2 (amended): between top-level operations the index invariants hold
PROVIDED no insert reuses a doc_id that is already present: from any state
satisfying the invariants (e.g. a fresh or cleared backend, `cacheInv_init`),
an insert of a fresh id, a remove (of any id — an unknown id raises before
any mutation), and a clear each preserve invariants 1 and 2.  The
unrestricted claim is refuted by `claim_C2_counterexample`: re-inserting an
existing id with a different fingerprint leaves a stale bucket entry. -/
theorem claim_C2_invariants_preserved (hashT : List Nat → Nat) (op : CacheOp)
    (st : DictBackend) (hinv : CacheInv hashT st)
    (hfresh : ∀ fp d, op = CacheOp.insert fp d → st.fpAt d = none) :
    CacheInv hashT (applyOp hashT op st) := by
  cases op with
  | insert fp d =>
    exact add_preserves_inv hashT st fp d hinv (hfresh fp d rfl)
  | remove d =>
    cases hfp : st.fpAt d with
    | none =>
      show CacheInv hashT (match Cache.remove_id hashT st d with
        | Except.ok st' => st'
        | Except.error _ => st)
      rw [remove_id_absent_error hashT st d hfp]
      exact hinv
    | some fpd =>
      obtain ⟨st', hrun, hinv'⟩ :=
        remove_present_preserves_inv hashT st d fpd hinv hfp
      show CacheInv hashT (match Cache.remove_id hashT st d with
        | Except.ok st' => st'
        | Except.error _ => st)
      rw [hrun]
      exact hinv'
  | clear =>
    show CacheInv hashT (DictBackend.clear st)
    exact cacheInv_init hashT st.numBands

/-- C2 counterexample: the invariants do NOT hold after every sequence of
top-level operations.  On a one-band cache, inserting fingerprint [1] as
id 0 and then (the unguarded re-insert of C3) fingerprint [2] as the same
id 0 leaves band 0 holding id 0 under the bucket key of slice [1] while the
stored fingerprint is [2] — invariant 1 is violated. -/
theorem claim_C2_counterexample :
    ¬ CacheInv hashModel
        (applyOp hashModel (CacheOp.insert [2] 0)
          (applyOp hashModel (CacheOp.insert [1] 0) (DictBackend.init 1))) := by
  intro h
  obtain ⟨hwf, hsound, hbuck⟩ := h
  obtain ⟨f, hf, hkey⟩ := hsound 0 (by decide) (2, [0]) (by decide) 0 (by decide)
  have hfv : f = [2] :=
    (Option.some.inj ((by decide :
      DictBackend.fpAt (applyOp hashModel (CacheOp.insert [2] 0)
        (applyOp hashModel (CacheOp.insert [1] 0) (DictBackend.init 1))) 0
        = some [2]).symm.trans hf)).symm
  rw [hfv] at hkey
  exact absurd hkey (by decide)

/-- Witness for the amended C2: the invariants hold for a fresh one-band
backend and are preserved by a remove operation. -/
theorem claim_C2_witness :
    CacheInv hashModel (DictBackend.init 1)
    ∧ (∀ fp d, CacheOp.remove 0 = CacheOp.insert fp d
        → (DictBackend.init 1).fpAt d = none)
    ∧ CacheInv hashModel (applyOp hashModel (CacheOp.remove 0) (DictBackend.init 1)) :=
  ⟨cacheInv_init hashModel 1,
   fun fp d h => CacheOp.noConfusion h,
   claim_C2_invariants_preserved hashModel (CacheOp.remove 0) (DictBackend.init 1)
     (cacheInv_init hashModel 1)
     (fun fp d h => CacheOp.noConfusion h)⟩

theorem matchCount_comm (a b : Fp) : matchCount a b = matchCount b a := by
  unfold matchCount
  induction a generalizing b with
  | nil => cases b <;> simp
  | cons x a ih =>
    cases b with
    | nil => simp
    | cons y b =>
      simp only [List.zip_cons_cons, List.countP_cons]
      rw [ih]
      congr 1
      by_cases hxy : x = y
      · simp [hxy]
      · simp [hxy, Ne.symm hxy]

theorem matchCount_self (a : Fp) : matchCount a a = a.length := by
  unfold matchCount
  induction a with
  | nil => simp
  | cons x a ih => simp [List.zip_cons_cons, List.countP_cons, ih]

theorem matchCount_le (a b : Fp) : matchCount a b ≤ a.length := by
  calc matchCount a b ≤ (List.zip a b).length := List.countP_le_length _
  _ ≤ a.length := by
      rw [List.length_zip]
      exact Nat.min_le_left _ _

theorem zip_forall_eq {a b : Fp} (hlen : a.length = b.length)
    (h : ∀ p ∈ List.zip a b, p.1 = p.2) : a = b := by
  induction a generalizing b with
  | nil =>
    cases b with
    | nil => rfl
    | cons y b => simp at hlen
  | cons x a ih =>
    cases b with
    | nil => simp at hlen
    | cons y b =>
      simp only [List.length_cons, Nat.succ.injEq] at hlen
      have hxy := h (x, y) (by simp [List.zip_cons_cons])
      simp only at hxy
      rw [hxy, ih hlen (fun p hp => h p (by simp [List.zip_cons_cons, hp]))]

theorem matchCount_eq_length_iff {a b : Fp} (hlen : a.length = b.length) :
    matchCount a b = a.length ↔ a = b := by
  constructor
  · intro h
    have hzlen : (List.zip a b).length = a.length := by
      rw [List.length_zip, hlen]
      exact Nat.min_self _
    have hall : ∀ p ∈ List.zip a b, (fun p : Nat × Nat => p.1 == p.2) p := by
      apply List.countP_eq_length.mp
      unfold matchCount at h
      rw [hzlen]
      exact h
    exact zip_forall_eq hlen (fun p hp => by simpa [beq_iff_eq] using hall p hp)
  · intro h
    subst h
    exact matchCount_self a

theorem matchCount_positions (a b : Fp) (K : Nat) (ha : a.length = K)
    (hb : b.length = K) :
    matchCount a b
      = (List.range K).countP (fun i => a.getD i 0 == b.getD i 0) := by
  unfold matchCount
  induction a generalizing b K with
  | nil =>
    cases b with
    | nil =>
      subst ha
      simp
    | cons y b =>
      simp only [List.length_nil] at ha
      simp only [List.length_cons] at hb
      omega
  | cons x a ih =>
    cases b with
    | nil =>
      simp only [List.length_cons] at ha
      simp only [List.length_nil] at hb
      omega
    | cons y b =>
      cases K with
      | zero => simp at ha
      | succ K =>
        simp only [List.length_cons, Nat.succ.injEq] at ha hb
        rw [List.zip_cons_cons, List.countP_cons, List.range_succ_eq_map,
          List.countP_cons, List.countP_map, ih b K ha hb]
        congr 1

/-- C4: the Jaccard estimator equals the fraction of signature positions at
which the two signatures agree (`count(i : a[i] == b[i]) / K`), is 1.0 iff
the signatures are elementwise equal, is 0.0 when no positions agree, always
lies in [0, 1], and is commutative — for length-K signatures with K ≥ 1
(the hasher rejects `num_seeds ≤ 0`). -/
theorem claim_C4_jaccard (a b : Fp) (K : Nat) (hK : 0 < K)
    (ha : a.length = K) (hb : b.length = K) :
    jaccard a b
      = ((List.range K).countP (fun i => a.getD i 0 == b.getD i 0) : ℚ) / (K : ℚ)
    ∧ (jaccard a b = 1 ↔ a = b)
    ∧ (matchCount a b = 0 → jaccard a b = 0)
    ∧ 0 ≤ jaccard a b
    ∧ jaccard a b ≤ 1
    ∧ jaccard a b = jaccard b a := by
  have hKne : ((K : ℚ)) ≠ 0 := Nat.cast_ne_zero.mpr (Nat.pos_iff_ne_zero.mp hK)
  have hKpos : (0 : ℚ) < (K : ℚ) := by exact_mod_cast hK
  refine ⟨?_, ?_, ?_, ?_, ?_, ?_⟩
  · unfold jaccard
    rw [matchCount_positions a b K ha hb, ha]
  · unfold jaccard
    rw [ha, div_eq_one_iff_eq hKne]
    constructor
    · intro h
      have hc : matchCount a b = K := by exact_mod_cast h
      rw [← ha] at hc
      exact (matchCount_eq_length_iff (ha.trans hb.symm)).mp hc
    · intro h
      subst h
      rw [matchCount_self, ha]
  · intro h
    unfold jaccard
    rw [h]
    simp
  · unfold jaccard
    exact div_nonneg (Nat.cast_nonneg _) (Nat.cast_nonneg _)
  · unfold jaccard
    rw [div_le_one (by rw [ha]; exact hKpos)]
    exact_mod_cast matchCount_le a b
  · unfold jaccard
    rw [matchCount_comm a b, ha, hb]

/-- Witness for C4 on the signatures [1,2] and [1,3] of length K = 2. -/
theorem claim_C4_witness :
    0 < 2 ∧ ([1, 2] : Fp).length = 2 ∧ ([1, 3] : Fp).length = 2
    ∧ (jaccard [1, 2] [1, 3]
        = ((List.range 2).countP
            (fun i => ([1, 2] : Fp).getD i 0 == ([1, 3] : Fp).getD i 0) : ℚ) / (2 : ℚ)
       ∧ (jaccard [1, 2] [1, 3] = 1 ↔ ([1, 2] : Fp) = [1, 3])
       ∧ (matchCount [1, 2] [1, 3] = 0 → jaccard [1, 2] [1, 3] = 0)
       ∧ 0 ≤ jaccard [1, 2] [1, 3]
       ∧ jaccard [1, 2] [1, 3] ≤ 1
       ∧ jaccard [1, 2] [1, 3] = jaccard [1, 3] [1, 2]) :=
  ⟨by decide, rfl, rfl, claim_C4_jaccard [1, 2] [1, 3] 2 (by decide) rfl rfl⟩

/-- Removing an id that was just added to a bucket restores the band dict
exactly, provided the id was in no bucket before and no empty bucket was
materialized. -/
theorem removeFromBand_addToBand (band : List (Nat × List DocId)) (k : Nat)
    (d : DocId) (hclean : ∀ p ∈ band, d ∉ p.2 ∧ p.2 ≠ []) :
    removeFromBand (addToBand band k d) k d = band := by
  unfold addToBand
  cases hlk : lookupKV band k with
  | none =>
    have hlk2 : lookupKV (band ++ [(k, [d])]) k = some [d] := by
      rw [lookupKV_append_left hlk]
      simp
    have hf : ([d].filter (fun x => x ≠ d)).isEmpty = true := by simp
    unfold removeFromBand
    rw [hlk2]
    simp only [Option.getD_some]
    rw [if_pos hf]
    exact delKV_append_of_lookup_none [d] hlk
  | some s =>
    have hps := hclean (k, s) (mem_of_lookupKV_some hlk)
    have hds : d ∉ s := hps.1
    have hsne : s ≠ [] := hps.2
    have hins : insertSet d s = s ++ [d] := by
      unfold insertSet
      rw [if_neg hds]
    unfold removeFromBand
    rw [lookupKV_setKV_self]
    simp only [Option.getD_some]
    have hfilt : (insertSet d s).filter (fun x => x ≠ d) = s := by
      rw [hins, List.filter_append]
      have h1 : (s.filter (fun x => x ≠ d)) = s :=
        List.filter_eq_self.mpr (fun a ha => by
          simp only [decide_eq_true_eq]
          intro had
          exact hds (had ▸ ha))
      have h2 : ([d].filter (fun x => x ≠ d)) = [] := by simp
      rw [h1, h2, List.append_nil]
    rw [hfilt]
    have hne : ¬(s.isEmpty = true) := by
      intro he
      exact hsne (List.isEmpty_iff.mp he)
    rw [if_neg hne, setKV_setKV]
    exact setKV_lookup_self hlk

theorem list_ext_getD {α : Type} {l₁ l₂ : List α} (dflt : α)
    (hlen : l₁.length = l₂.length)
    (h : ∀ i, i < l₁.length → l₁.getD i dflt = l₂.getD i dflt) : l₁ = l₂ := by
  apply List.ext_getElem hlen
  intro i h1 h2
  have hi := h i h1
  rwa [List.getD_eq_getElem l₁ dflt h1, List.getD_eq_getElem l₂ dflt h2] at hi

theorem dictBackend_ext {s t : DictBackend}
    (h1 : s.fingerprints = t.fingerprints) (h2 : s.docIds = t.docIds)
    (h3 : s.numBands = t.numBands) : s = t := by
  cases s
  cases t
  simp_all

/-- C9 (amended): `get_duplicates_of` called with document bytes and no
doc_id inserts the document under the reserved sentinel id -1 and removes it
again in the `finally` block, so after the call — also when the generator is
closed before being fully consumed, the loop itself never mutating — the
backend state equals the state before the call, PROVIDED the backend's
fingerprint dict is initialized (not `None`), the sentinel is unused (not
stored and in no bucket, as reserved by the spec) and no empty bucket is
materialized (spec invariant 3).  On a backend that never stored any
fingerprint the call instead leaves an initialized empty dict behind
(`claim_C9_counterexample`), a difference observable through C10's
TypeError/KeyError distinction. -/
theorem claim_C9_state_restored (hashT : List Nat → Nat) (st : DictBackend)
    (m : List (DocId × Fp)) (f : Fp) (minJaccard : Option ℚ)
    (hm : st.fingerprints = some m) (hs : lookupKV m (-1) = none)
    (hlen : st.docIds.length = st.numBands)
    (hclean : ∀ band ∈ st.docIds, ∀ p ∈ band, (-1 : DocId) ∉ p.2 ∧ p.2 ≠ []) :
    (Cache.get_duplicates_of hashT st (some f) none minJaccard).2 = st := by
  show (Cache.sentinel_scan hashT st (some f) minJaccard).2 = st
  rcases Nat.eq_zero_or_pos st.numBands with h0 | hpos
  · have hst1 : Cache.add_fingerprint hashT st f (-1) = st := by
      rw [cache_add_eq_range_foldl, h0]
      rfl
    have hgf : st.get_fingerprint (-1) = Except.error PyErr.keyError := by
      unfold DictBackend.get_fingerprint
      rw [hm]
      simp [hs]
    unfold Cache.sentinel_scan
    show (match (Cache.add_fingerprint hashT st f (-1)).get_fingerprint (-1) with
      | Except.ok fp =>
        Cache.dupScan hashT (Cache.add_fingerprint hashT st f (-1)) fp (-1)
          minJaccard true
      | Except.error e =>
        (Except.error e, Cache.add_fingerprint hashT st f (-1))).2 = st
    rw [hst1, hgf]
  · have hm0 : st.fingerprints.getD [] = m := by rw [hm]; rfl
    have hfps1 : (Cache.add_fingerprint hashT st f (-1)).fingerprints
        = some (m ++ [((-1 : DocId), f)]) := by
      rw [cache_add_eq_range_foldl, range_add_fps _ f (-1) _ st hpos, hm0,
        setKV_of_lookup_none f hs]
    have hnb1 : (Cache.add_fingerprint hashT st f (-1)).numBands
        = st.numBands := by
      rw [cache_add_eq_range_foldl]
      exact range_add_numBands _ f (-1) _ st
    have hlen1 : (Cache.add_fingerprint hashT st f (-1)).docIds.length
        = st.docIds.length := by
      rw [cache_add_eq_range_foldl]
      exact range_add_docIds_length _ f (-1) _ st
    have hgd1 : ∀ i, i < st.numBands →
        (Cache.add_fingerprint hashT st f (-1)).docIds.getD i []
          = addToBand (st.docIds.getD i [])
              (hashT (Cache.bandSlice st.numBands i f)) (-1) := by
      intro i hi
      have h2 : i < st.docIds.length := by rw [hlen]; exact hi
      rw [cache_add_eq_range_foldl, range_add_docIds_getD]
      simp [hi, h2]
    have hlkm1 : lookupKV (m ++ [((-1 : DocId), f)]) (-1) = some f := by
      rw [lookupKV_append_left hs]
      simp
    have hgf1 : (Cache.add_fingerprint hashT st f (-1)).get_fingerprint (-1)
        = Except.ok f := by
      unfold DictBackend.get_fingerprint
      rw [hfps1]
      simp [hlkm1]
    have hok1 : ∀ b, b < (Cache.add_fingerprint hashT st f (-1)).numBands →
        (-1 : DocId) ∈
          ((lookupKV ((Cache.add_fingerprint hashT st f (-1)).docIds.getD b [])
            (hashT (Cache.bandSlice
              (Cache.add_fingerprint hashT st f (-1)).numBands b f))).getD []) := by
      intro b hb
      rw [hnb1] at hb
      rw [hgd1 b hb, hnb1, lookupKV_addToBand_self]
      simp only [Option.getD_some]
      exact self_mem_insertSet _ _
    obtain ⟨st', hrun, hfps', hnb', hlen', hgd'⟩ :=
      cache_remove_id_spec hashT (Cache.add_fingerprint hashT st f (-1)) (-1)
        (m ++ [((-1 : DocId), f)]) f hfps1 hlkm1 hok1
    have hst'_eq : st' = st := by
      apply dictBackend_ext
      · rw [hfps', delKV_append_of_lookup_none f hs, hm]
      · apply list_ext_getD []
        · rw [hlen', hlen1]
        · intro i hilt
          have hi : i < st.numBands := by
            rw [← hlen, ← hlen1, ← hlen']
            exact hilt
          have hiL1 : i < (Cache.add_fingerprint hashT st f (-1)).docIds.length := by
            rw [hlen1, hlen]
            exact hi
          rw [hgd' i, if_pos ⟨by rw [hnb1]; exact hi, hiL1⟩, hnb1, hgd1 i hi]
          exact removeFromBand_addToBand _ _ _
            (hclean (st.docIds.getD i [])
              (getD_mem_of_lt [] (by rw [hlen]; exact hi)))
      · rw [hnb', hnb1]
    unfold Cache.sentinel_scan
    show (match (Cache.add_fingerprint hashT st f (-1)).get_fingerprint (-1) with
      | Except.ok fp =>
        Cache.dupScan hashT (Cache.add_fingerprint hashT st f (-1)) fp (-1)
          minJaccard true
      | Except.error e =>
        (Except.error e, Cache.add_fingerprint hashT st f (-1))).2 = st
    rw [hgf1]
    show (Cache.dupScan hashT (Cache.add_fingerprint hashT st f (-1)) f (-1)
      minJaccard true).2 = st
    unfold Cache.dupScan
    show (match Cache.remove_id hashT (Cache.add_fingerprint hashT st f (-1)) (-1) with
      | Except.ok st2 => st2
      | Except.error _ => Cache.add_fingerprint hashT st f (-1)) = st
    rw [hrun]
    exact hst'_eq

/-- C9 counterexample: the claim "the index state equals the state before
the call" fails on a backend whose fingerprint dict was never initialized:
`get_duplicates_of` on a fresh one-band backend leaves the fingerprint dict
as an (initialized) empty dict rather than `None`. -/
theorem claim_C9_counterexample :
    (Cache.get_duplicates_of hashModel (DictBackend.init 1)
        (some [1]) none none).2
      ≠ DictBackend.init 1 := by decide

/-- Witness for the amended C9 on a backend holding one document. -/
theorem claim_C9_witness :
    (⟨some [(0, [5])], [[(2, [0])]], 1⟩ : DictBackend).fingerprints
        = some [(0, [5])]
    ∧ lookupKV [((0 : DocId), [(5 : Nat)])] (-1) = none
    ∧ (⟨some [(0, [5])], [[(2, [0])]], 1⟩ : DictBackend).docIds.length
        = (⟨some [(0, [5])], [[(2, [0])]], 1⟩ : DictBackend).numBands
    ∧ (∀ band ∈ (⟨some [(0, [5])], [[(2, [0])]], 1⟩ : DictBackend).docIds,
        ∀ p ∈ band, (-1 : DocId) ∉ p.2 ∧ p.2 ≠ [])
    ∧ (Cache.get_duplicates_of hashModel
        (⟨some [(0, [5])], [[(2, [0])]], 1⟩ : DictBackend)
        (some [9]) none none).2
      = (⟨some [(0, [5])], [[(2, [0])]], 1⟩ : DictBackend) :=
  ⟨rfl, by decide, rfl, by decide,
   claim_C9_state_restored hashModel _ [(0, [5])] [9] none rfl (by decide)
     rfl (by decide)⟩

/-- C5: the claim "is_duplicate returns false when the index is empty" fails
on the code.  With the dict backend, `backend.is_empty()` is False for every
empty index with at least one band (the C1 slip), so the empty-index early
return is never taken; on a fresh one-band cache,
`is_duplicate(doc, doc_id=7)` then evaluates
`7 in self.backend._fingerprints` with the fingerprint dict still `None`
and raises `TypeError` instead of returning False. -/
theorem claim_C5_empty_index_raises :
    Cache.is_duplicate hashModel (DictBackend.init 1) (some [5]) (some 7) (9 / 10)
      = Except.error PyErr.typeError := rfl
